import Mathlib

/-!
Verification development for the production-line monitoring engine
(`production.py`): the line-buffering socket reader, the metal-detector
line parser, the weight classifier, the FIFO correlation of the weigher
and metal queues, the post-stop cleanup policy, the reconnect scheduling
of the monitoring loop, and the start-up connection policy.

Conventions of the embedding:
- `datetime` values are modelled as `Int` seconds; byte strings as
  `List Nat` (one entry per byte, latin-1 decoding is the identity on
  code points); text lines as `List Char`.
- Exceptions are modelled as explicit outcome constructors.
-/

namespace Production

/- ═══════════ SocketLineReader (production.py lines 28-52) ═══════════ -/

/-- One result of a `sock.recv(4096)` call in `SocketLineReader.readline`:
either the 0.5 s read timeout fired (`socket.timeout`), or a chunk of
bytes arrived; the empty chunk means the peer closed its side. -/
inductive RecvEvent where
  | timeout : RecvEvent
  | data : List Nat → RecvEvent
deriving DecidableEq

/-- The observable outcome of one `readline()` call: a complete decoded
line, the propagated `socket.timeout`, or the raised
`ConnectionError("Connection closed by remote")`. -/
inductive ReadOutcome where
  | line : List Nat → ReadOutcome
  | readTimeout : ReadOutcome
  | connClosed : ReadOutcome
deriving DecidableEq

/-- Result of running `readline()` against a schedule of recv results:
the outcome (`none` when the schedule is exhausted with the call still
blocked in `recv`), the internal buffer afterwards, the unconsumed
schedule, and how many `recv` calls were made. -/
structure ReadResult where
  outcome : Option ReadOutcome
  buffer : List Nat
  rest : List RecvEvent
  recvCount : Nat
deriving DecidableEq

/-- `self.buffer.find(b'\n')` followed by the slicing in lines 41-44:
splits the buffer at the first newline byte (10), returning the line
bytes and the remainder, or `none` when no newline is buffered. -/
def splitNl : List Nat → Option (List Nat × List Nat)
  | [] => none
  | b :: bs =>
    if b = 10 then some ([], bs)
    else
      match splitNl bs with
      | some (l, r) => some (b :: l, r)
      | none => none

/-- `.rstrip('\r')` on the decoded line: drop all trailing 13 bytes. -/
def rstripCR (l : List Nat) : List Nat :=
  (l.reverse.dropWhile (fun b => b = 13)).reverse

/-- `SocketLineReader.readline` (lines 37-49): loop — if a newline is
buffered, return that line decoded (latin-1 is the identity) with
trailing `\r` stripped and keep the remainder; otherwise `recv` once:
a timeout propagates, an empty chunk raises `ConnectionError`, a
non-empty chunk is appended to the buffer and the loop repeats. -/
def readline (evts : List RecvEvent) (buf : List Nat) : ReadResult :=
  match splitNl buf with
  | some (l, r) => ⟨some (ReadOutcome.line (rstripCR l)), r, evts, 0⟩
  | none =>
    match evts with
    | [] => ⟨none, buf, [], 0⟩
    | RecvEvent.timeout :: es => ⟨some ReadOutcome.readTimeout, buf, es, 1⟩
    | RecvEvent.data bytes :: es =>
      if bytes = [] then ⟨some ReadOutcome.connClosed, buf, es, 1⟩
      else
        let r := readline es (buf ++ bytes)
        ⟨r.outcome, r.buffer, r.rest, r.recvCount + 1⟩

/- ═══════════ Metal parser (production.py lines 25, 531-543) ═══════════ -/

/-- `METAL_THRESHOLD = 100` (line 25). -/
def METAL_THRESHOLD : Nat := 100

/-- Python `str.strip()` whitespace set, i.e. the characters with
`str.isspace()` true: the ASCII range 9-13 and 28-32, NEL (133),
no-break space (160), and the Unicode space separators; after the
latin-1 decode in `SocketLineReader.readline` only the code points
below 256 can occur in a line. -/
def isPySpace (c : Char) : Bool :=
  let n := c.toNat
  (9 ≤ n && n ≤ 13) || (28 ≤ n && n ≤ 32) || n = 133 || n = 160 ||
  n = 0x1680 || (0x2000 ≤ n && n ≤ 0x200a) || n = 0x2028 || n = 0x2029 ||
  n = 0x202f || n = 0x205f || n = 0x3000

/-- Python `str.strip()`: drop leading and trailing whitespace. -/
def pyStrip (l : List Char) : List Char :=
  ((l.dropWhile isPySpace).reverse.dropWhile isPySpace).reverse

/-- Whether `pat` occurs at the head of `s`. -/
def begins : List Char → List Char → Bool
  | [], _ => true
  | _ :: _, [] => false
  | p :: ps, c :: cs => p = c && begins ps cs

/-- Python `line.split(sep, 1)` restricted to the case where it finds the
separator: splits at the first occurrence of `sep`, returning the parts
before and after it; `none` when `sep` does not occur (`len(parts)==1`). -/
def splitFirst (sep : List Char) : List Char → Option (List Char × List Char)
  | [] => none
  | c :: cs =>
    if begins sep (c :: cs) then some ([], (c :: cs).drop sep.length)
    else
      match splitFirst sep cs with
      | some (a, b) => some (c :: a, b)
      | none => none

/-- `re.search(r'(\d+)', s)`: the first maximal run of decimal digits. -/
def firstDigits : List Char → Option (List Char)
  | [] => none
  | c :: cs =>
    if c.isDigit then some (c :: cs.takeWhile Char.isDigit)
    else firstDigits cs

/-- `int(...)` on a run of digit characters. -/
def digitsVal (ds : List Char) : Nat :=
  ds.foldl (fun a c => a * 10 + (c.toNat - 48)) 0

/-- The `' - '` separator used by `line.split(' - ', 1)` (line 536). -/
def sepChars : List Char := [' ', '-', ' ']

/-- `_parse_metal` (lines 531-543): empty line yields nothing; a line
stripping to `"0"` or `"1"` is the binary form (value 0, resp. the
threshold); otherwise split once on `' - '` and take the first integer
after the separator as the value, with status 1 iff it reaches the
threshold; anything else yields nothing. `now` stands for
`datetime.now()`. -/
def parse_metal (line : List Char) (now : Int) : Option (Nat × Nat × Int) :=
  if line = [] then none
  else if pyStrip line = ['0'] then some (0, 0, now)
  else if pyStrip line = ['1'] then some (1, METAL_THRESHOLD, now)
  else
    match splitFirst sepChars line with
    | some (_, rest) =>
      match firstDigits (pyStrip rest) with
      | some ds =>
        let first_value := digitsVal ds
        some (if METAL_THRESHOLD ≤ first_value then 1 else 0, first_value, now)
      | none => none
    | none => none

/- ═══════════ Weight classifier (production.py lines 545-550) ═══════════ -/

/-- `_calc_status` (lines 545-550) with the limits made explicit: 0 is
Under, 1 is Pass, 2 is Over. -/
def calc_status (weight under_limit over_limit : Int) : Nat :=
  if weight < under_limit then 0
  else if weight > over_limit then 2
  else 1

/- ═══════════ Queues and matching (production.py lines 596-669) ═══════════ -/

/-- One entry of `self.w_queue` (lines 598-602): weight, its
classification, the device timestamp (`machine_ts or now_ts`), the
arrival wall-clock time used for matching/cleanup, and the log id. -/
structure WReading where
  weight : Int
  status : Nat
  timestamp : Int
  queue_time : Int
  log_id : Nat
deriving DecidableEq

/-- One entry of `self.m_queue` (lines 626-627): status, detected value
(`none` only in the synthesized neutral reading), arrival timestamp. -/
structure MReading where
  status : Nat
  value : Option Nat
  timestamp : Int
deriving DecidableEq

/-- The neutral metal reading synthesized at line 665:
`{'status': 0, 'value': None, 'timestamp': wr['timestamp']}`. -/
def neutralMetal (w : WReading) : MReading := ⟨0, none, w.timestamp⟩

/-- The `while self.w_queue and self.m_queue` loop of `_match`
(lines 658-661): repeatedly pop the oldest entry of each queue and pair
them; returns the produced pairs in order and both residual queues. -/
def matchLoop : List WReading → List MReading →
    List (WReading × MReading) × List WReading × List MReading
  | [], mq => ([], [], mq)
  | w :: ws, [] => ([], w :: ws, [])
  | w :: ws, m :: ms =>
    let r := matchLoop ws ms
    ((w, m) :: r.1, r.2.1, r.2.2)

/-- `_match` (lines 655-669): with a metal endpoint configured
(`self.metal_ip` truthy) run the FIFO pairing loop; without one, pop
every weigher reading and pair it with the synthesized neutral metal
reading. Returns the matched pairs (`db_ops` entries, also handed to the
display) and the residual queues. -/
def matchReadings (metal_ip : Bool) (wq : List WReading) (mq : List MReading) :
    List (WReading × MReading) × List WReading × List MReading :=
  if metal_ip then matchLoop wq mq
  else (wq.map (fun w => (w, neutralMetal w)), [], mq)

/- ═══════════ Cleanup (production.py lines 671-690) ═══════════ -/

/-- `_cleanup_old` (lines 671-690): while `self.running` is true nothing
is removed; once stopped, each queue keeps exactly the entries whose age
`now - r.get('queue_time', r['timestamp'])` is at most 3600 seconds.
Weigher entries always carry `queue_time`; metal entries fall back to
their `timestamp`. -/
def cleanup_old (running : Bool) (now : Int)
    (wq : List WReading) (mq : List MReading) :
    List WReading × List MReading :=
  if running then (wq, mq)
  else (wq.filter (fun r => decide (now - r.queue_time ≤ 3600)),
        mq.filter (fun r => decide (now - r.timestamp ≤ 3600)))

/- ═══════════ Reconnect scheduling (production.py lines 582-639) ═══════════ -/

/-- Inputs of one iteration of `_mon_loop` as they affect one device's
reconnect scheduling: the wall-clock time of the iteration, whether a
read on the connected device raised `ConnectionError`/`OSError` this
iteration, and whether a connection attempt made this iteration would
succeed. -/
structure MonTick where
  now : Int
  lost : Bool
  connOk : Bool
deriving DecidableEq

/-- Per-device state of the loop: whether the device is connected, and
the `last_w_reconnect` / `last_m_reconnect` local (initialized to the
loop start time at lines 586-587, updated to `now` at each reconnect
attempt). -/
structure MonState where
  connected : Bool
  lastReconnect : Int
deriving DecidableEq

/-- The reconnect scheduling of `_mon_loop` for one device
(lines 589-616 for the weigher, 619-639 for the metal detector), run
over a trace of iterations; returns the times at which a reconnect
attempt (`self._conn_w()` / `self._conn_m()`) is made. While connected,
a lost read disconnects the device; while disconnected, an attempt is
made exactly when `now - lastReconnect >= 5`, and `lastReconnect` is set
to `now` whether or not the attempt succeeds. -/
def runMon : MonState → List MonTick → List Int
  | _, [] => []
  | s, e :: es =>
    if s.connected then
      runMon ⟨!e.lost, s.lastReconnect⟩ es
    else if 5 ≤ e.now - s.lastReconnect then
      e.now :: runMon ⟨e.connOk, e.now⟩ es
    else
      runMon s es

/-- A list of attempt times each at least 5 seconds after the previous
one (the first at least 5 seconds after the base time). -/
def Spaced : Int → List Int → Prop
  | _, [] => True
  | b, t :: ts => b + 5 ≤ t ∧ Spaced t ts

/- ═══════════ Start-up connection policy (production.py lines 552-570) ═══════════ -/

/-- The `for attempt in range(n)` connect loops in `_start_mon`: succeeds
iff some attempt in the given outcome sequence succeeds. -/
def connectRetry (outcomes : List Bool) : Bool :=
  outcomes.any (fun b => b)

/-- `_start_mon` (lines 552-570) reduced to its connection decisions:
the weigher gets up to 3 attempts and its failure is fatal (returns
false); when a metal endpoint is configured the detector gets up to 2
attempts, and its failure only produces a warning. Returns
(start succeeded, metal detector connected). The configured
`self.metal_ip` is NOT cleared on metal failure. -/
def start_mon (wOutcomes mOutcomes : List Bool) (metal_ip : Bool) : Bool × Bool :=
  if connectRetry (wOutcomes.take 3) then
    (true, metal_ip && connectRetry (mOutcomes.take 2))
  else (false, false)

/- ═══════════ Sample readings used by witnesses ═══════════ -/

/-- A sample weigher reading (25100 g classified Pass). -/
def w0 : WReading := ⟨25100, 1, 10, 11, 1⟩

/-- A second sample weigher reading (24900 g classified Under). -/
def w1 : WReading := ⟨24900, 0, 12, 13, 2⟩

/-- A sample metal reading (binary detection form). -/
def m0 : MReading := ⟨1, some 100, 14⟩

/- ═══════════ Helper lemmas ═══════════ -/

theorem matchLoop_eq : ∀ (wq : List WReading) (mq : List MReading),
    matchLoop wq mq = (wq.zip mq, wq.drop mq.length, mq.drop wq.length) := by
  intro wq
  induction wq with
  | nil => intro mq; simp [matchLoop]
  | cons w ws ih =>
    intro mq
    cases mq with
    | nil => simp [matchLoop]
    | cons m ms => simp [matchLoop, ih ms]

theorem zip_getElem?_eq_some {α β : Type} :
    ∀ (l1 : List α) (l2 : List β) (i : Nat) (a : α) (b : β),
      l1[i]? = some a → l2[i]? = some b → (l1.zip l2)[i]? = some (a, b) := by
  intro l1
  induction l1 with
  | nil => intro l2 i a b h1 _; simp at h1
  | cons x xs ih =>
    intro l2 i a b h1 h2
    cases l2 with
    | nil => simp at h2
    | cons y ys =>
      cases i with
      | zero =>
        simp at h1 h2
        simp [h1, h2]
      | succ n =>
        simp at h1 h2
        simpa using ih ys n a b h1 h2

theorem readline_line (evts : List RecvEvent) (buf l r : List Nat)
    (h : splitNl buf = some (l, r)) :
    readline evts buf = ⟨some (ReadOutcome.line (rstripCR l)), r, evts, 0⟩ := by
  cases evts with
  | nil => simp [readline, h]
  | cons e es => cases e <;> simp [readline, h]

theorem readline_nil (buf : List Nat) (h : splitNl buf = none) :
    readline [] buf = ⟨none, buf, [], 0⟩ := by
  simp [readline, h]

theorem readline_timeout (es : List RecvEvent) (buf : List Nat)
    (h : splitNl buf = none) :
    readline (RecvEvent.timeout :: es) buf =
      ⟨some ReadOutcome.readTimeout, buf, es, 1⟩ := by
  simp [readline, h]

theorem readline_closed (es : List RecvEvent) (buf : List Nat)
    (h : splitNl buf = none) :
    readline (RecvEvent.data [] :: es) buf =
      ⟨some ReadOutcome.connClosed, buf, es, 1⟩ := by
  simp [readline, h]

theorem readline_data (es : List RecvEvent) (buf bytes : List Nat)
    (h : splitNl buf = none) (hb : bytes ≠ []) :
    readline (RecvEvent.data bytes :: es) buf =
      ⟨(readline es (buf ++ bytes)).outcome, (readline es (buf ++ bytes)).buffer,
       (readline es (buf ++ bytes)).rest,
       (readline es (buf ++ bytes)).recvCount + 1⟩ := by
  simp [readline, h, hb]

theorem splitNl_isSome_of_mem :
    ∀ (l : List Nat), 10 ∈ l → ∃ p, splitNl l = some p := by
  intro l
  induction l with
  | nil => intro h; simp at h
  | cons b bs ih =>
    intro h
    by_cases hb : b = 10
    · exact ⟨([], bs), by simp [splitNl, hb]⟩
    · have hm : 10 ∈ bs := by
        rcases List.mem_cons.mp h with h1 | h1
        · exact absurd h1.symm hb
        · exact h1
      obtain ⟨p, hp⟩ := ih hm
      exact ⟨(b :: p.1, p.2), by simp [splitNl, hb, hp]⟩

theorem begins_eq_append :
    ∀ (p s : List Char), begins p s = true → s = p ++ s.drop p.length := by
  intro p
  induction p with
  | nil => intro s _; simp
  | cons x xs ih =>
    intro s h
    cases s with
    | nil => simp [begins] at h
    | cons c cs =>
      simp [begins] at h
      obtain ⟨h1, h2⟩ := h
      subst h1
      simpa using ih cs h2

theorem splitFirst_eq_append :
    ∀ (l a b : List Char), splitFirst sepChars l = some (a, b) →
      l = a ++ sepChars ++ b := by
  intro l
  induction l with
  | nil => intro a b h; simp [splitFirst] at h
  | cons c cs ih =>
    intro a b h
    simp only [splitFirst] at h
    by_cases hb : begins sepChars (c :: cs) = true
    · simp only [hb, if_true, Option.some.injEq, Prod.mk.injEq] at h
      obtain ⟨ha, hbb⟩ := h
      subst ha; subst hbb
      simpa using begins_eq_append sepChars (c :: cs) hb
    · simp only [hb, Bool.false_eq_true, if_false] at h
      cases hsp : splitFirst sepChars cs with
      | none => rw [hsp] at h; simp at h
      | some p =>
        rw [hsp] at h
        obtain ⟨a', b'⟩ := p
        simp only [Option.some.injEq, Prod.mk.injEq] at h
        obtain ⟨ha, hbb⟩ := h
        rw [← ha, ← hbb, ih a' b' hsp]
        simp

theorem mem_dropWhile_of_mem {p : Char → Bool} :
    ∀ (l : List Char) (c : Char), c ∈ l → p c = false → c ∈ l.dropWhile p := by
  intro l
  induction l with
  | nil => intro c h _; simp at h
  | cons x xs ih =>
    intro c h hc
    by_cases hx : p x = true
    · rw [List.dropWhile_cons_of_pos hx]
      rcases List.mem_cons.mp h with h1 | h1
      · subst h1; rw [hx] at hc; exact absurd hc (by simp)
      · exact ih c h1 hc
    · rw [List.dropWhile_cons_of_neg (by simpa using hx)]
      exact h

theorem mem_pyStrip (l : List Char) (c : Char)
    (h : c ∈ l) (hc : isPySpace c = false) : c ∈ pyStrip l := by
  have h1 := mem_dropWhile_of_mem l c h hc
  have h2 : c ∈ (l.dropWhile isPySpace).reverse := List.mem_reverse.mpr h1
  have h3 := mem_dropWhile_of_mem _ c h2 hc
  exact List.mem_reverse.mpr h3

theorem splitFirst_strip_ne (l a b : List Char)
    (h : splitFirst sepChars l = some (a, b)) :
    l ≠ [] ∧ pyStrip l ≠ ['0'] ∧ pyStrip l ≠ ['1'] := by
  have he := splitFirst_eq_append l a b h
  have hm : '-' ∈ l := by rw [he]; simp [sepChars]
  have hs : '-' ∈ pyStrip l := mem_pyStrip l '-' hm (by decide)
  refine ⟨?_, ?_, ?_⟩
  · intro h0; rw [h0] at hm; simp at hm
  · intro h0; rw [h0] at hs; exact absurd hs (by decide)
  · intro h0; rw [h0] at hs; exact absurd hs (by decide)

/- ═══════════ Claim theorems ═══════════ -/

/-- Claim C1: with a metal detector configured, one call to `_match` on a
weigher queue of N readings and a metal queue of M readings (each in
arrival order) produces exactly min(N, M) matched records, the i-th
pairing the i-th oldest weigher reading with the i-th oldest metal
reading. -/
theorem C1_fifo_matching (wq : List WReading) (mq : List MReading) :
    (matchReadings true wq mq).1.length = min wq.length mq.length ∧
    ∀ (i : Nat) (a : WReading) (b : MReading),
      wq[i]? = some a → mq[i]? = some b →
      (matchReadings true wq mq).1[i]? = some (a, b) := by
  constructor
  · simp [matchReadings, matchLoop_eq]
  · intro i a b h1 h2
    simp only [matchReadings, if_true, matchLoop_eq]
    exact zip_getElem?_eq_some wq mq i a b h1 h2

/-- Claim C1 witness: two weigher readings against one metal reading
give exactly one record, pairing the oldest of each. -/
theorem C1_fifo_matching_witness :
    (matchReadings true [w0, w1] [m0]).1.length = min 2 1 ∧
    (matchReadings true [w0, w1] [m0]).1[0]? = some (w0, m0) :=
  ⟨(C1_fifo_matching [w0, w1] [m0]).1,
   (C1_fifo_matching [w0, w1] [m0]).2 0 w0 m0 rfl rfl⟩

/-- Claim C2: while running, `_cleanup_old` removes nothing from either
queue regardless of age or depth; once stopped, each queue retains
exactly the entries whose arrival timestamp is at most 3600 seconds old
(those strictly older than 3600 seconds are removed). -/
theorem C2_cleanup_policy (now : Int) (wq : List WReading) (mq : List MReading) :
    cleanup_old true now wq mq = (wq, mq) ∧
    (∀ r : WReading, r ∈ (cleanup_old false now wq mq).1 ↔
       r ∈ wq ∧ ¬ (3600 < now - r.queue_time)) ∧
    (∀ r : MReading, r ∈ (cleanup_old false now wq mq).2 ↔
       r ∈ mq ∧ ¬ (3600 < now - r.timestamp)) := by
  refine ⟨rfl, ?_, ?_⟩ <;> intro r <;>
    simp [cleanup_old, List.mem_filter, not_lt]

/-- Claim C3: a read timeout on `readline` with no newline buffered is
surfaced as `ReadOutcome.readTimeout`, distinct from
`ReadOutcome.connClosed`; the internal buffer is left unchanged; and a
later `readline` on the same buffer succeeds as soon as a
newline-terminated chunk arrives — the reader is never left unusable. -/
theorem C3_timeout_survivable (buf : List Nat) (es : List RecvEvent)
    (h : splitNl buf = none) :
    readline (RecvEvent.timeout :: es) buf =
      ⟨some ReadOutcome.readTimeout, buf, es, 1⟩ ∧
    ReadOutcome.readTimeout ≠ ReadOutcome.connClosed ∧
    ∀ bs : List Nat, ∃ l rest,
      readline [RecvEvent.data (bs ++ [10])] buf =
        ⟨some (ReadOutcome.line l), rest, [], 1⟩ := by
  refine ⟨readline_timeout es buf h, by simp, ?_⟩
  intro bs
  have hne : bs ++ [10] ≠ [] := by simp
  have hmem : (10 : Nat) ∈ buf ++ (bs ++ [10]) := by simp
  obtain ⟨⟨l0, r0⟩, hp⟩ := splitNl_isSome_of_mem (buf ++ (bs ++ [10])) hmem
  refine ⟨rstripCR l0, r0, ?_⟩
  rw [readline_data [] buf (bs ++ [10]) h hne,
    readline_line [] (buf ++ (bs ++ [10])) l0 r0 hp]

/-- Claim C3 witness: timeout on buffer `[65]`, then a line completes. -/
theorem C3_timeout_survivable_witness :
    readline [RecvEvent.timeout] [65] =
      ⟨some ReadOutcome.readTimeout, [65], [], 1⟩ :=
  (C3_timeout_survivable [65] [] rfl).1

/-- Claim C4: without a metal detector configured, `_match` turns every
weigher reading into exactly one record whose metal side is the
synthesized neutral reading: status 0, value none, timestamp equal to
the weigher reading's timestamp field. -/
theorem C4_no_detector_neutral (wq : List WReading) (mq : List MReading) :
    (matchReadings false wq mq).1.length = wq.length ∧
    ∀ (i : Nat) (w : WReading), wq[i]? = some w →
      (matchReadings false wq mq).1[i]? =
        some (w, ⟨0, none, w.timestamp⟩) := by
  constructor
  · simp [matchReadings]
  · intro i w h
    simp [matchReadings, neutralMetal, h]

/-- Claim C4 witness: a single weigher reading and an empty metal queue. -/
theorem C4_no_detector_neutral_witness :
    (matchReadings false [w0] []).1[0]? = some (w0, ⟨0, none, w0.timestamp⟩) :=
  (C4_no_detector_neutral [w0] []).2 0 w0 rfl

/-- Claim C5 counterexample: the claim quantifies over every pair of
limits and demands `classify(overLimit, underLimit, overLimit) = Pass`;
with underLimit 10 and overLimit 5 the code classifies weight 5 as
Under (0), not Pass (1). -/
theorem C5_classifier_counterexample : ¬ (calc_status 5 10 5 = 1) := by decide

/-- Claim C5 amended: provided underLimit ≤ overLimit, `_calc_status`
returns Under (0) exactly when weight < underLimit, Over (2) exactly
when weight > overLimit, Pass (1) otherwise, and both limit values
themselves classify as Pass. -/
theorem C5_classifier (w u o : Int) (h : u ≤ o) :
    (calc_status w u o = 0 ↔ w < u) ∧
    (calc_status w u o = 2 ↔ o < w) ∧
    (calc_status w u o = 1 ↔ u ≤ w ∧ w ≤ o) ∧
    calc_status u u o = 1 ∧ calc_status o u o = 1 := by
  refine ⟨?_, ?_, ?_, ?_, ?_⟩ <;> unfold calc_status <;> split_ifs <;>
    (try simp_all) <;> omega

/-- Claim C5 witness: the session defaults under=25025, over=25175 and a
passing weight of 25100. -/
theorem C5_classifier_witness :
    (25025 : Int) ≤ 25175 ∧ calc_status 25100 25025 25175 = 1 :=
  ⟨by decide,
   ((C5_classifier 25100 25025 25175 (by decide)).2.2.1).mpr (by decide)⟩

/-- Claim C6: `_parse_metal` maps `"1"` to status 1 with value 100,
`"0"` to status 0 with value 0; a line containing the `' - '` separator
with some digit after it yields the first integer after the separator as
value, with status 1 iff the value reaches the threshold 100; and any
other line (not stripping to a bare 0/1, and lacking either the
separator or a digit after it) yields no reading — the function is total
and never raises. -/
theorem C6_parse_metal_spec (now : Int) :
    parse_metal ("1".data) now = some (1, 100, now) ∧
    parse_metal ("0".data) now = some (0, 0, now) ∧
    parse_metal ("Detector - 150".data) now = some (1, 150, now) ∧
    parse_metal ("Detector - 50".data) now = some (0, 50, now) ∧
    (∀ (line a b ds : List Char),
       splitFirst sepChars line = some (a, b) →
       firstDigits (pyStrip b) = some ds →
       parse_metal line now =
         some (if 100 ≤ digitsVal ds then 1 else 0, digitsVal ds, now)) ∧
    (∀ line : List Char, pyStrip line ≠ ['0'] → pyStrip line ≠ ['1'] →
       splitFirst sepChars line = none → parse_metal line now = none) ∧
    (∀ (line a b : List Char), pyStrip line ≠ ['0'] → pyStrip line ≠ ['1'] →
       splitFirst sepChars line = some (a, b) →
       firstDigits (pyStrip b) = none → parse_metal line now = none) := by
  refine ⟨rfl, rfl, rfl, rfl, ?_, ?_, ?_⟩
  · intro line a b ds hsp hfd
    obtain ⟨hne, h0, h1⟩ := splitFirst_strip_ne line a b hsp
    simp [parse_metal, hne, h0, h1, hsp, hfd, METAL_THRESHOLD]
  · intro line h0 h1 hsp
    by_cases hne : line = []
    · simp [parse_metal, hne]
    · simp [parse_metal, hne, h0, h1, hsp]
  · intro line a b h0 h1 hsp hfd
    have hne : line ≠ [] := (splitFirst_strip_ne line a b hsp).1
    simp [parse_metal, hne, h0, h1, hsp, hfd]

/-- Claim C6 witness: a full-format line below threshold and a line with
no recognizable format. -/
theorem C6_parse_metal_spec_witness :
    parse_metal ("X - 7".data) 0 = some (0, 7, 0) ∧
    parse_metal ("junk".data) 0 = none :=
  ⟨(C6_parse_metal_spec 0).2.2.2.2.1 ("X - 7".data) ("X".data) ("7".data)
     ['7'] rfl rfl,
   (C6_parse_metal_spec 0).2.2.2.2.2.1 ("junk".data)
     (by decide) (by decide) rfl⟩

/-- Claim C7 counterexample: with an empty buffer and data arriving as a
chunk without a newline followed by the terminating chunk, a single
`readline` call performs two receive calls before returning the line —
not exactly one. -/
theorem C7_single_recv_counterexample :
    (readline [RecvEvent.data [97], RecvEvent.data [10]] []).recvCount = 2 ∧
    (readline [RecvEvent.data [97], RecvEvent.data [10]] []).outcome =
      some (ReadOutcome.line [97]) := by decide

/-- Claim C7 amended: when no newline is buffered, `readline` performs
one receive call per loop iteration — exactly one per consumed recv
result, at least one overall — repeating until a complete line is
buffered or the receive raises; an empty receive (zero bytes) raises
`ConnectionError` after that single receive. -/
theorem C7_recv_per_iteration :
    (∀ (evts : List RecvEvent) (buf : List Nat),
       (readline evts buf).recvCount + (readline evts buf).rest.length =
         evts.length) ∧
    (∀ (evts : List RecvEvent) (buf : List Nat),
       splitNl buf = none → evts ≠ [] → 1 ≤ (readline evts buf).recvCount) ∧
    (∀ (es : List RecvEvent) (buf : List Nat), splitNl buf = none →
       readline (RecvEvent.data [] :: es) buf =
         ⟨some ReadOutcome.connClosed, buf, es, 1⟩) := by
  refine ⟨?_, ?_, ?_⟩
  · intro evts
    induction evts with
    | nil =>
      intro buf
      cases h : splitNl buf with
      | some p =>
        obtain ⟨l, r⟩ := p
        rw [readline_line [] buf l r h]
        simp
      | none =>
        rw [readline_nil buf h]
        simp
    | cons e es ih =>
      intro buf
      cases h : splitNl buf with
      | some p =>
        obtain ⟨l, r⟩ := p
        rw [readline_line (e :: es) buf l r h]
        simp
      | none =>
        cases e with
        | timeout =>
          rw [readline_timeout es buf h]
          simp [Nat.add_comm]
        | data bytes =>
          by_cases hb : bytes = []
          · subst hb
            rw [readline_closed es buf h]
            simp [Nat.add_comm]
          · rw [readline_data es buf bytes h hb]
            have hih := ih (buf ++ bytes)
            simp only [List.length_cons]
            omega
  · intro evts buf h hne
    cases evts with
    | nil => exact absurd rfl hne
    | cons e es =>
      cases e with
      | timeout =>
        rw [readline_timeout es buf h]
      | data bytes =>
        by_cases hb : bytes = []
        · subst hb
          rw [readline_closed es buf h]
        · rw [readline_data es buf bytes h hb]
          show 1 ≤ (readline es (buf ++ bytes)).recvCount + 1
          omega
  · intro es buf h
    exact readline_closed es buf h

/-- Claim C7 witness: an immediate empty receive raises ConnectionClosed
after exactly one receive call. -/
theorem C7_recv_per_iteration_witness :
    readline [RecvEvent.data []] [] =
      ⟨some ReadOutcome.connClosed, [], [], 1⟩ :=
  C7_recv_per_iteration.2.2 [] [] rfl

/-- Claim C8 counterexample: the loop's 5-second timer measures time
since the last reconnect attempt (initialized at loop start), not since
the disconnect: starting connected with the timer base at 0, a
disconnect observed at t=100 is followed by a reconnect attempt at
t=101, only 1 second after the disconnect. -/
theorem C8_reconnect_counterexample :
    runMon ⟨true, 0⟩ [⟨100, true, false⟩, ⟨101, false, true⟩] = [101] ∧
    (101 : Int) < 100 + 5 := by decide

/-- Claim C8 amended: reconnect attempts for a device are rate-limited
to at least 5 seconds apart, measured from the previous attempt (or the
loop-start baseline): along any trace of loop iterations, consecutive
attempt times differ by at least 5 seconds, so a second disconnected
observation within 5 seconds of the previous attempt triggers no
additional attempt. -/
theorem C8_reconnect_spacing : ∀ (trace : List MonTick) (s : MonState),
    Spaced s.lastReconnect (runMon s trace) := by
  intro trace
  induction trace with
  | nil => intro s; simp [runMon, Spaced]
  | cons e es ih =>
    intro s
    by_cases hc : s.connected
    · simpa [runMon, hc] using ih ⟨!e.lost, s.lastReconnect⟩
    · by_cases hg : 5 ≤ e.now - s.lastReconnect
      · have h2 := ih ⟨e.connOk, e.now⟩
        simp only [runMon, hc, if_false, hg, if_true]
        exact ⟨by omega, h2⟩
      · simpa [runMon, hc, hg] using ih s

/-- Claim C9 counterexample: with a metal endpoint configured and both
of its connect attempts failed, `_start_mon` still succeeds — but
`_match` branches on the configured endpoint, not on the connection, so
a queued weigher reading produces no record at all (it waits for a metal
reading), whereas hasDetector=false behavior would produce one neutral
record. -/
theorem C9_proceed_counterexample :
    (start_mon [true, false, false] [false, false] true).1 = true ∧
    (matchReadings true [w0] []).1 = [] ∧
    (matchReadings false [w0] []).1 = [(w0, neutralMetal w0)] :=
  ⟨rfl, rfl, rfl⟩

/-- Claim C9 amended: metal-detector connection failure during start is
non-fatal — the start result is independent of the metal attempt
outcomes and of whether a metal endpoint is configured — but the session
does NOT behave as hasDetector=false: with the endpoint configured and
the metal queue empty, `_match` produces no records and leaves every
weigher reading queued, waiting for metal readings. -/
theorem C9_metal_failure_nonfatal (wOut m1 m2 : List Bool)
    (wq : List WReading) :
    (start_mon wOut m1 true).1 = (start_mon wOut m2 true).1 ∧
    (start_mon wOut m1 true).1 = (start_mon wOut m1 false).1 ∧
    (matchReadings true wq []).1 = [] ∧
    (matchReadings true wq []).2.1 = wq := by
  have h : ∀ (m : List Bool) (cfg : Bool),
      (start_mon wOut m cfg).1 = connectRetry (wOut.take 3) := by
    intro m cfg
    unfold start_mon
    cases hw : connectRetry (wOut.take 3) <;> simp
  refine ⟨by rw [h, h], by rw [h, h], ?_, ?_⟩ <;>
    simp [matchReadings, matchLoop_eq]

/-- Claim C10: `_match` drains all available pairs in one call — with a
detector configured at least one residual queue is empty afterwards, and
without one the weigher queue is empty afterwards. -/
theorem C10_match_drains (wq : List WReading) (mq : List MReading) :
    ((matchReadings true wq mq).2.1 = [] ∨ (matchReadings true wq mq).2.2 = []) ∧
    (matchReadings false wq mq).2.1 = [] := by
  constructor
  · simp only [matchReadings, if_true, matchLoop_eq]
    rcases le_total wq.length mq.length with h | h
    · left; exact List.drop_eq_nil_of_le h
    · right; exact List.drop_eq_nil_of_le h
  · simp [matchReadings]

end Production
